import Mathlib

/-!
Shallow embedding of the LivePaste server (src/server.js) over the schema of
src/init.sql, restricted to a single room: every handler modelled here operates
on the rows belonging to one room, mirroring the SQL queries' `room_id = $1`
filters.  Versions, sequence numbers and sizes are `Nat` (the schema's BIGINT
counters only ever increment).  Ciphertext columns, hashes and ids are `String`.
Timestamps carry no information used by any claim and are abstracted away,
except `resolved_at`, modelled as a flag recording whether it has been set.
Status columns are kept as the literal strings the schema stores.
-/

/-- A row of the `files` table (src/init.sql lines 15-27), restricted to the
columns the server reads or writes. -/
structure FileRow where
  id : String
  path_hash : String
  path_encrypted : String
  content_encrypted : Option String
  is_syncable : Bool
  size_bytes : Option Nat
  version : Nat
  snapshot_seq : Nat
deriving DecidableEq, Repr

/-- A row of the `operations` table (src/init.sql lines 54-63). -/
structure OpRow where
  file_path_hash : String
  seq : Nat
  op_encrypted : String
  client_id : Option String
  base_version : Nat
deriving DecidableEq, Repr

/-- A row of the `deleted_files` tombstone table (second schema document of
src/init.sql; the table the server's `trackDeletion` inserts into). -/
structure Tombstone where
  path_hash : String
  deleted_at_version : Nat
deriving DecidableEq, Repr

/-- A row of the `changesets` table (src/init.sql lines 30-38).  `resolved_at`
is `true` when the column has been set to a non-NULL timestamp. -/
structure ChangesetRow where
  id : String
  author_encrypted : Option String
  message_encrypted : Option String
  status : String
  resolved_at : Bool
deriving DecidableEq, Repr

/-- A row of the `changes` table (src/init.sql lines 41-50). -/
structure ChangeRow where
  id : String
  changeset_id : String
  file_path_encrypted : String
  old_content_encrypted : Option String
  new_content_encrypted : String
  diff_encrypted : Option String
  status : String
deriving DecidableEq, Repr

/-- The durable state of one room: its `rooms` row counters plus all dependent
rows.  `changesets` is kept in creation order (newest last), matching the SQL
`ORDER BY created_at DESC` read as a reversal; `operations` is kept in
insertion order, which coincides with ascending `seq` because every insert uses
the freshly incremented `op_seq`. -/
structure RoomState where
  version : Nat
  op_seq : Nat
  files : List FileRow
  operations : List OpRow
  tombstones : List Tombstone
  changesets : List ChangesetRow
  changes : List ChangeRow
deriving DecidableEq, Repr

/-- A freshly created room (`INSERT INTO rooms (id) VALUES ($1)` with the
schema defaults version = 0, op_seq = 0 and no dependent rows). -/
def roomState0 : RoomState :=
  { version := 0, op_seq := 0, files := [], operations := [], tombstones := [],
    changesets := [], changes := [] }

/-- The `notify_room_update` trigger function (src/init.sql lines 75-82):
`UPDATE rooms SET version = version + 1` for the affected room; the
`pg_notify` call has no effect on stored state. -/
def notifyRoomUpdate (s : RoomState) : RoomState :=
  { s with version := s.version + 1 }

/-- Lexicographic comparison of character lists by code point, the order
underlying the model of SQL `ORDER BY` on text columns (the store's collation
is abstracted to a fixed total order on strings). -/
def charsLe : List Char → List Char → Bool
  | [], _ => true
  | _ :: _, [] => false
  | a :: as, b :: bs => if a = b then charsLe as bs else decide (a.toNat < b.toNat)

/-- Total order on strings induced by `charsLe`. -/
def strLe (a b : String) : Bool :=
  charsLe a.data b.data

/-- Order on files by `path_encrypted`, the `ORDER BY path_encrypted`
of the state query in `getRoomState` (src/server.js line 189). -/
def fileLe (a b : FileRow) : Prop :=
  strLe a.path_encrypted b.path_encrypted = true

instance fileLeDecidable : DecidableRel fileLe :=
  fun a b => instDecidableEqBool (strLe a.path_encrypted b.path_encrypted) true

/-- Order on operations by `seq`, the `ORDER BY seq ASC` of the
operation queries. -/
def opLe (a b : OpRow) : Prop :=
  a.seq ≤ b.seq

instance opLeDecidable : DecidableRel opLe :=
  fun a b => Nat.decLe a.seq b.seq

/-- The response shape of `getRoomState` (src/server.js lines 208-218).
Each changeset is paired with its aggregated child changes. -/
structure StateResp where
  version : Nat
  op_seq : Nat
  files : List FileRow
  deleted_path_hashes : List String
  has_more : Bool
  changesets : List (ChangesetRow × List ChangeRow)
deriving DecidableEq, Repr

/-- The full, ordered result set of the files query in `getRoomState`
(src/server.js lines 188-191) before `LIMIT`/`OFFSET` are applied: files with
per-file `version > sinceVersion`, ordered by `path_encrypted`. -/
def sinceFiles (s : RoomState) (sinceVersion : Nat) : List FileRow :=
  List.insertionSort fileLe
    (s.files.filter (fun f => decide (sinceVersion < f.version)))

/-- The function `getRoomState(roomId, sinceVersion, limit, offset)` (src/server.js lines
180-219): files with per-file `version > sinceVersion` ordered by
`path_encrypted` with `LIMIT limit OFFSET offset`; tombstones with
`deleted_at_version > sinceVersion` only when `sinceVersion > 0`;
`has_more` is the JS `filesResult.rows.length === limit`; pending changesets
with their changes, in `created_at DESC` order. -/
def getRoomState (s : RoomState) (sinceVersion limit offset : Nat) : StateResp :=
  let page := ((sinceFiles s sinceVersion).drop offset).take limit
  { version := s.version
    op_seq := s.op_seq
    files := page
    deleted_path_hashes :=
      if 0 < sinceVersion then
        (s.tombstones.filter
          (fun t => decide (sinceVersion < t.deleted_at_version))).map
          (fun t => t.path_hash)
      else []
    has_more := page.length == limit
    changesets :=
      ((s.changesets.filter (fun cs => cs.status == "pending")).map
        (fun cs => (cs, s.changes.filter (fun ch => ch.changeset_id == cs.id)))).reverse }

/-- The helper `trackDeletion` (src/server.js lines 222-227): insert one tombstone row. -/
def trackDeletion (s : RoomState) (pathHash : String) (version : Nat) : RoomState :=
  { s with tombstones := s.tombstones ++ [{ path_hash := pathHash, deleted_at_version := version }] }

/-- Request body of `POST /api/room/:id/files` (src/server.js line 664).
`none` fields are absent (`undefined`) in the JSON body. -/
structure FilesReq where
  path_hash : String
  path_encrypted : String
  content_encrypted : Option String
  is_syncable : Option Bool
  size_bytes : Option Nat
deriving DecidableEq, Repr

/-- The JS expression `size_bytes || null` (src/server.js line 671): `0`,
`null` and `undefined` are all falsy and become NULL. -/
def jsSizeOrNull : Option Nat → Option Nat
  | some 0 => none
  | some n => some n
  | none => none

/-- The single-file upsert statement shared by `POST /files`, sync chunks and
bulk sync (src/server.js lines 669-672): `INSERT INTO files ... ON CONFLICT
(room_id, path_hash) DO UPDATE SET path_encrypted = $3, content_encrypted = $4,
is_syncable = $5, size_bytes = $6, version = files.version + 1`.  The
`file_updated` AFTER INSERT OR UPDATE trigger (src/init.sql lines 100-103) then
runs `notify_room_update`, bumping the room version once for the one affected
row.  `newId` stands for the `gen_random_uuid()` primary key of a fresh row. -/
def upsertFile (s : RoomState) (r : FilesReq) (newId : String) : FileRow × RoomState :=
  let syncable := r.is_syncable != some false
  let size := jsSizeOrNull r.size_bytes
  match s.files.find? (fun f => f.path_hash == r.path_hash) with
  | some f =>
    let f' := { f with path_encrypted := r.path_encrypted,
                       content_encrypted := r.content_encrypted,
                       is_syncable := syncable, size_bytes := size,
                       version := f.version + 1 }
    let files' := s.files.map (fun g => if g.path_hash == r.path_hash then f' else g)
    (f', notifyRoomUpdate { s with files := files' })
  | none =>
    let f' : FileRow :=
      { id := newId, path_hash := r.path_hash, path_encrypted := r.path_encrypted,
        content_encrypted := r.content_encrypted, is_syncable := syncable,
        size_bytes := size, version := 1, snapshot_seq := 0 }
    (f', notifyRoomUpdate { s with files := s.files ++ [f'] })

/-- Handler `POST /api/room/:id/files` (src/server.js lines 662-684): perform
the upsert, then read the room version back; the response carries the stored
row and `room_version`. -/
def postFiles (s : RoomState) (r : FilesReq) (newId : String) :
    (FileRow × Nat) × RoomState :=
  let (row, s') := upsertFile s r newId
  ((row, s'.version), s')

/-- Result of `DELETE /api/room/:id/files/:fileId`. -/
inductive DeleteResp where
  | ok (version : Nat)
  | notFound
deriving DecidableEq, Repr

/-- Handler `DELETE /api/room/:id/files/:fileId` (src/server.js lines 687-733),
one transaction: select the file's `path_hash` by id; on a miss, roll back and
answer 404; otherwise delete the row (`DELETE FROM files` fires no trigger),
run `UPDATE rooms SET version = version + 1 RETURNING version`, and insert the
tombstone at that new version. -/
def deleteFile (s : RoomState) (fileId : String) : DeleteResp × RoomState :=
  match s.files.find? (fun f => f.id == fileId) with
  | none => (DeleteResp.notFound, s)
  | some f =>
    let files' := s.files.filter (fun g => !(g.id == fileId))
    let newVersion := s.version + 1
    let s' := trackDeletion { s with files := files', version := newVersion }
      f.path_hash newVersion
    (DeleteResp.ok newVersion, s')

/-- Request body of `POST /api/room/:id/ops` (src/server.js line 1136).
`base_version = none` is an absent (`undefined`) field; `client_id = none`
covers both an absent request field and a NULL column. -/
structure OpsReq where
  file_path_hash : String
  op_encrypted : String
  client_id : Option String
  base_version : Option Nat
deriving DecidableEq, Repr

/-- The JS strict-inequality `op.client_id !== client_id` (src/server.js line
1168) between the stored column (NULL ⇒ `null`) and the request field (absent
⇒ `undefined`): two present strings compare by value; any comparison involving
`null` or `undefined` is `true` (in particular `null !== undefined`). -/
def clientNeq : Option String → Option String → Bool
  | some a, some b => a != b
  | _, _ => true

/-- Projection of a conflicting operation row into the 409 payload
(src/server.js lines 1178-1182). -/
structure ConflictOp where
  seq : Nat
  op_encrypted : String
  client_id : Option String
deriving DecidableEq, Repr

/-- Response of `POST /api/room/:id/ops`: either HTTP 409 with the conflict
payload (src/server.js lines 1173-1184) or HTTP 200 with
`seq` and `current_version` (lines 1203-1208). -/
inductive OpsResp where
  | conflict (current_version : Nat) (base_version : Nat) (conflicting_ops : List ConflictOp)
  | ok (seq : Nat) (current_version : Nat)
deriving DecidableEq, Repr

/-- Whether an ops response is the HTTP 409 conflict variant. -/
def OpsResp.isConflict : OpsResp → Bool
  | OpsResp.conflict _ _ _ => true
  | OpsResp.ok _ _ => false

/-- The read `fileResult.rows[0]?.version || 0` (src/server.js line 1155). -/
def fileVersionOf (s : RoomState) (pathHash : String) : Nat :=
  match s.files.find? (fun f => f.path_hash == pathHash) with
  | some f => f.version
  | none => 0

/-- The read `fileResult.rows[0]?.snapshot_seq || 0` (src/server.js line 1156). -/
def snapshotSeqOf (s : RoomState) (pathHash : String) : Nat :=
  match s.files.find? (fun f => f.path_hash == pathHash) with
  | some f => f.snapshot_seq
  | none => 0

/-- The conflict candidates of an ops submission (src/server.js lines
1162-1168): operations of the same file with `seq > snapshot_seq`, ordered by
`seq ASC`, minus those from the submitting client. -/
def conflictingOpsOf (s : RoomState) (r : OpsReq) : List OpRow :=
  (List.insertionSort opLe
    (s.operations.filter
      (fun op => op.file_path_hash == r.file_path_hash
        && decide (snapshotSeqOf s r.file_path_hash < op.seq)))).filter
    (fun op => clientNeq op.client_id r.client_id)

/-- The success path of the ops handler (src/server.js lines 1188-1208):
`UPDATE rooms SET op_seq = op_seq + 1, version = version + 1 RETURNING op_seq`;
insert the operation row with `base_version || 0`; the `operation_created`
AFTER INSERT trigger (src/init.sql lines 118-121) bumps the room version a
second time; respond `seq` and `current_version = currentFileVersion + 1`. -/
def submitOpSuccess (s : RoomState) (r : OpsReq) (currentFileVersion : Nat) :
    OpsResp × RoomState :=
  let newSeq := s.op_seq + 1
  let s1 := { s with op_seq := newSeq, version := s.version + 1 }
  let opRow : OpRow :=
    { file_path_hash := r.file_path_hash, seq := newSeq,
      op_encrypted := r.op_encrypted, client_id := r.client_id,
      base_version := r.base_version.getD 0 }
  let s2 := notifyRoomUpdate { s1 with operations := s1.operations ++ [opRow] }
  (OpsResp.ok newSeq (currentFileVersion + 1), s2)

/-- Handler `POST /api/room/:id/ops` (src/server.js lines 1134-1219), one
transaction.  After locking the room and file rows it reads the file's
version and snapshot_seq (0 when the file does not exist).  When
`base_version !== undefined && (base_version > 0 || currentFileVersion > 0)` it
gathers the conflict candidates; if any remain after filtering the client's
own ops and `base_version < currentFileVersion`, it rolls back and answers
409; in every other case it runs the success path. -/
def submitOp (s : RoomState) (r : OpsReq) : OpsResp × RoomState :=
  let currentFileVersion := fileVersionOf s r.file_path_hash
  match r.base_version with
  | some bv =>
    if 0 < bv || 0 < currentFileVersion then
      let cops := conflictingOpsOf s r
      if 0 < cops.length && decide (bv < currentFileVersion) then
        (OpsResp.conflict currentFileVersion bv
          (cops.map (fun op =>
            { seq := op.seq, op_encrypted := op.op_encrypted,
              client_id := op.client_id })), s)
      else submitOpSuccess s r currentFileVersion
    else submitOpSuccess s r currentFileVersion
  | none => submitOpSuccess s r currentFileVersion

/-- Result of `POST /api/room/:id/sync/complete`. -/
inductive SyncCompleteResp where
  | ok (state : StateResp) (files_deleted : Nat)
  | sessionExpired
deriving DecidableEq, Repr

/-- Handler `POST /api/room/:id/sync/complete` (src/server.js lines 830-894).
`sessions` is the room's slice of the in-memory `syncSessions` map, each entry
pairing a session token with the session's observed `pathHashes` set.  With a
live session, one transaction selects the room's files, keeps those whose
`path_hash` the session observed, and — only when something is to be deleted —
runs `UPDATE rooms SET version = version + 1 RETURNING version` once and
deletes each file (no trigger fires on DELETE), tombstoning it at the new
version via `trackDeletion`.  The session is then removed and the response
carries `getRoomState(roomId)` with its defaults plus `files_deleted`. -/
def syncComplete (s : RoomState) (sessions : List (String × List String))
    (token : String) :
    SyncCompleteResp × RoomState × List (String × List String) :=
  match sessions.lookup token with
  | none => (SyncCompleteResp.sessionExpired, s, sessions)
  | some observed =>
    let filesToDelete := s.files.filter (fun f => !(observed.contains f.path_hash))
    let s' :=
      if 0 < filesToDelete.length then
        let newVersion := s.version + 1
        let dropped :=
          { s with version := newVersion,
                   files := s.files.filter (fun f => observed.contains f.path_hash) }
        filesToDelete.foldl (fun st f => trackDeletion st f.path_hash newVersion) dropped
      else s
    let sessions' := sessions.filter (fun kv => !(kv.1 == token))
    (SyncCompleteResp.ok (getRoomState s' 0 1000 0) filesToDelete.length, s', sessions')

/-- The SQL errors PostgreSQL raises for the statements modelled below. -/
inductive SqlError where
  | noMatchingConflictTarget
  | notNullViolation
deriving DecidableEq, Repr

/-- The column lists backed by a unique index on `files`, usable as an
`ON CONFLICT` arbiter: the `id` primary key and `UNIQUE(room_id, path_hash)`
(src/init.sql lines 16 and 26).  There is no unique index on
`(room_id, path_encrypted)`. -/
def filesArbiterIndexes : List (List String) :=
  [["id"], ["room_id", "path_hash"]]

/-- The statement `INSERT INTO files (room_id, path_encrypted,
content_encrypted) VALUES ($1, $2, $3) ON CONFLICT (room_id, path_encrypted)
DO UPDATE SET content_encrypted = $3, version = files.version + 1` issued by
the changeset-accept handlers (src/server.js lines 1018-1021 and 1073-1076).
PostgreSQL rejects it with error 42P10 because no unique or exclusion
constraint matches the conflict target `(room_id, path_encrypted)`; even with
such an index the insert arm would violate `path_hash NOT NULL` (the column
has no default and is absent from the column list).  The would-be update arm,
with its `file_updated` trigger bump, is written out for completeness but is
unreachable. -/
def insertFileByPathEncrypted (s : RoomState) (pEnc cEnc : String) :
    Except SqlError RoomState :=
  if filesArbiterIndexes.contains ["room_id", "path_encrypted"] then
    match s.files.find? (fun f => f.path_encrypted == pEnc) with
    | some _ =>
      Except.ok (notifyRoomUpdate
        { s with files := s.files.map (fun g =>
            if g.path_encrypted == pEnc then
              { g with content_encrypted := some cEnc, version := g.version + 1 }
            else g) })
    | none => Except.error SqlError.notNullViolation
  else Except.error SqlError.noMatchingConflictTarget

/-- The statement `UPDATE changes SET status = $status WHERE id = $1`: at most one row is
rewritten; for each rewritten row the `change_updated` AFTER UPDATE trigger
(src/init.sql lines 112-115) runs `notify_change_update`, bumping the room
version (the single-room model always finds the owning changeset's room). -/
def updateChangeStatus (s : RoomState) (chId status : String) : RoomState :=
  if s.changes.any (fun ch => ch.id == chId) then
    notifyRoomUpdate
      { s with changes := s.changes.map (fun ch =>
          if ch.id == chId then { ch with status := status } else ch) }
  else s

/-- The statement `UPDATE changes SET status = 'rejected' WHERE changeset_id = $1`
(src/server.js line 1049): every child row is rewritten, and the
`change_updated` trigger fires once per row, so the room version advances by
the number of children. -/
def rejectChildren (s : RoomState) (csId : String) : RoomState :=
  let n := (s.changes.filter (fun ch => ch.changeset_id == csId)).length
  { s with version := s.version + n,
           changes := s.changes.map (fun ch =>
             if ch.changeset_id == csId then { ch with status := "rejected" } else ch) }

/-- The statement `UPDATE changesets SET status = $status, resolved_at = NOW() WHERE id = $1`:
no trigger watches UPDATEs on `changesets` (src/init.sql lines 106-109 fire on
INSERT only), so the room version is untouched. -/
def updateChangesetStatus (s : RoomState) (csId status : String) : RoomState :=
  { s with changesets := s.changesets.map (fun cs =>
      if cs.id == csId then { cs with status := status, resolved_at := true } else cs) }

/-- The transaction body of `POST /api/room/:id/changesets/:changesetId/accept`
(src/server.js lines 1010-1030): select the still-pending children, and for
each one upsert its target file and mark it accepted, then mark the changeset
accepted with `resolved_at`.  Any SQL error aborts the whole transaction. -/
def acceptChangesetTx (s : RoomState) (csId : String) : Except SqlError RoomState := do
  let pendingChanges := s.changes.filter
    (fun ch => ch.changeset_id == csId && ch.status == "pending")
  let s1 ← pendingChanges.foldlM
    (fun st ch => do
      let st' ← insertFileByPathEncrypted st ch.file_path_encrypted ch.new_content_encrypted
      pure (updateChangeStatus st' ch.id "accepted"))
    s
  pure (updateChangesetStatus s1 csId "accepted")

/-- Outcome of a handler at the HTTP layer. -/
inductive HandlerResult where
  | ok200
  | notFound
  | err500
deriving DecidableEq, Repr

/-- Handler `POST /api/room/:id/changesets/:changesetId/accept` (src/server.js
lines 1004-1042): the transaction body under BEGIN/COMMIT; on any error the
transaction is rolled back and the response is HTTP 500 with no state
change. -/
def acceptChangesetHandler (s : RoomState) (csId : String) :
    HandlerResult × RoomState :=
  match acceptChangesetTx s csId with
  | Except.ok s' => (HandlerResult.ok200, s')
  | Except.error _ => (HandlerResult.err500, s)

/-- Handler `POST /api/room/:id/changesets/:changesetId/reject` (src/server.js
lines 1045-1059).  It opens no transaction: the two `pool.query` statements
autocommit independently.  `stmt2Fails` injects a transient database failure
on the second statement (the spec's own error taxonomy); the first statement's
effects are already committed at that point, so the handler answers 500 with
the children rejected but the changeset untouched. -/
def rejectChangesetHandlerF (s : RoomState) (csId : String) (stmt2Fails : Bool) :
    HandlerResult × RoomState :=
  let s1 := rejectChildren s csId
  if stmt2Fails then (HandlerResult.err500, s1)
  else (HandlerResult.ok200, updateChangesetStatus s1 csId "rejected")

/-- Handler `POST /api/room/:id/changes/:changeId/accept` (src/server.js lines
1062-1096).  No transaction is opened; each statement autocommits.  The file
upsert is the first mutating statement, so when it fails the handler answers
500 with no state modified.  On success the change is marked accepted, the
remaining pending siblings are counted, and if none remain the parent
changeset becomes `partial` with `resolved_at`. -/
def acceptChangeHandler (s : RoomState) (chId : String) :
    HandlerResult × RoomState :=
  match s.changes.find? (fun ch => ch.id == chId) with
  | none => (HandlerResult.notFound, s)
  | some ch =>
    match insertFileByPathEncrypted s ch.file_path_encrypted ch.new_content_encrypted with
    | Except.error _ => (HandlerResult.err500, s)
    | Except.ok s1 =>
      let s2 := updateChangeStatus s1 chId "accepted"
      let pendingCount := (s2.changes.filter
        (fun c => c.changeset_id == ch.changeset_id && c.status == "pending")).length
      let s3 := if pendingCount = 0 then
          updateChangesetStatus s2 ch.changeset_id "partial"
        else s2
      (HandlerResult.ok200, s3)

/-- Client-side upsert of one received file row by `path_hash`
(claim C5's "adding/replacing files by path_hash"). -/
def clientUpsert (acc : List FileRow) (f : FileRow) : List FileRow :=
  if acc.any (fun g => g.path_hash == f.path_hash) then
    acc.map (fun g => if g.path_hash == f.path_hash then f else g)
  else acc ++ [f]

/-- Apply a batch of received file rows in order. -/
def applyFiles (client : List FileRow) (resp : List FileRow) : List FileRow :=
  resp.foldl clientUpsert client

/-- Remove every `path_hash` listed in `deleted_path_hashes`. -/
def applyDeletions (client : List FileRow) (deleted : List String) : List FileRow :=
  client.filter (fun f => !(deleted.contains f.path_hash))

/-- Page through `GET /api/room/:id?since=...` until `has_more` is false,
concatenating the returned file rows; `fuel` bounds the number of requests. -/
def fetchFilesToExhaustion (s : RoomState) (since limit : Nat) :
    Nat → Nat → List FileRow
  | 0, _ => []
  | fuel + 1, offset =>
    let resp := getRoomState s since limit offset
    if resp.has_more then
      resp.files ++ fetchFilesToExhaustion s since limit fuel (offset + limit)
    else resp.files

/-- The delta-sync client procedure of claim C5: page the `since` fetch to
exhaustion, apply every received row, then apply the deletion list. -/
def deltaSyncApply (client : List FileRow) (s : RoomState)
    (since limit fuel : Nat) : List FileRow :=
  applyDeletions (applyFiles client (fetchFilesToExhaustion s since limit fuel 0))
    ((getRoomState s since limit 0).deleted_path_hashes)

/-- Scenario S3 setup: the file upsert that creates `f1` at version 1. -/
def s3FileReq : FilesReq :=
  { path_hash := "f1", path_encrypted := "p1", content_encrypted := some "c1",
    is_syncable := none, size_bytes := none }

/-- Scenario S3: a room holding file `f1` at version 1 with `op_seq = 0`,
reached from a fresh room by one file upsert. -/
def s3Room : RoomState :=
  (postFiles roomState0 s3FileReq "id1").2

/-- Scenario S3: client A's operation, `base_version = 1`. -/
def s3ReqA : OpsReq :=
  { file_path_hash := "f1", op_encrypted := "opA", client_id := some "A",
    base_version := some 1 }

/-- Scenario S3: client B's operation, `base_version = 1`. -/
def s3ReqB : OpsReq :=
  { file_path_hash := "f1", op_encrypted := "opB", client_id := some "B",
    base_version := some 1 }

/-- A pending changeset row used by the changeset scenarios. -/
def csRow : ChangesetRow :=
  { id := "cs1", author_encrypted := some "au", message_encrypted := some "msg",
    status := "pending", resolved_at := false }

/-- A pending child change of `cs1` targeting the path ciphertext `pe1`. -/
def chRow : ChangeRow :=
  { id := "c1", changeset_id := "cs1", file_path_encrypted := "pe1",
    old_content_encrypted := some "old1", new_content_encrypted := "new1",
    diff_encrypted := some "d1", status := "pending" }

/-- The stored file the change targets (its `path_encrypted` even matches the
change's `file_path_encrypted`, the most favourable case for the handler). -/
def g1Row : FileRow :=
  { id := "g1", path_hash := "h1", path_encrypted := "pe1",
    content_encrypted := some "body1", is_syncable := true, size_bytes := none,
    version := 1, snapshot_seq := 0 }

/-- A room with one pending changeset `cs1` whose only child `c1` is pending
and targets the existing file `g1Row`. -/
def csState : RoomState :=
  { version := 3, op_seq := 0, files := [g1Row], operations := [],
    tombstones := [], changesets := [csRow], changes := [chRow] }

/-- Delta-sync counterexample: first upsert, creating file `a`. -/
def c5ReqA : FilesReq :=
  { path_hash := "a", path_encrypted := "pa", content_encrypted := some "ca",
    is_syncable := none, size_bytes := none }

/-- Delta-sync counterexample: second upsert, creating file `b`. -/
def c5ReqB : FilesReq :=
  { path_hash := "b", path_encrypted := "pb", content_encrypted := some "cb",
    is_syncable := none, size_bytes := none }

/-- Room after the first upsert: version 1, one file at per-file version 1. -/
def c5State1 : RoomState :=
  (postFiles roomState0 c5ReqA "ida").2

/-- Room after the second upsert: version 2, file `b` at per-file version 1. -/
def c5State2 : RoomState :=
  (postFiles c5State1 c5ReqB "idb").2

/-- What a client fetching the full state at room version 1 obtained. -/
def c5Client : List FileRow :=
  deltaSyncApply [] c5State1 0 1000 1

/-- The row of file `b` as stored in `c5State2`. -/
def c5RowB : FileRow :=
  { id := "idb", path_hash := "b", path_encrypted := "pb",
    content_encrypted := some "cb", is_syncable := true, size_bytes := none,
    version := 1, snapshot_seq := 0 }

/-- Witness state for the amended delta-sync round-trip: one file at per-file
version 2 and one tombstone newer than the client's version 1. -/
def c5WState : RoomState :=
  { version := 2, op_seq := 0,
    files := [{ id := "ia", path_hash := "a", path_encrypted := "pa",
                content_encrypted := some "ca2", is_syncable := true,
                size_bytes := none, version := 2, snapshot_seq := 0 }],
    operations := [],
    tombstones := [{ path_hash := "z", deleted_at_version := 2 }],
    changesets := [], changes := [] }

/-- Witness client for the amended delta-sync round-trip: holds the room's
state as of version 1 (old copy of `a`, plus `z`, deleted since). -/
def c5WClient : List FileRow :=
  [{ id := "ia", path_hash := "a", path_encrypted := "pa",
     content_encrypted := some "ca1", is_syncable := true, size_bytes := none,
     version := 1, snapshot_seq := 0 },
   { id := "iz", path_hash := "z", path_encrypted := "pz",
     content_encrypted := some "cz", is_syncable := true, size_bytes := none,
     version := 1, snapshot_seq := 0 }]

/-- The current row of file `a` in `c5WState`. -/
def c5WRowA : FileRow :=
  { id := "ia", path_hash := "a", path_encrypted := "pa",
    content_encrypted := some "ca2", is_syncable := true, size_bytes := none,
    version := 2, snapshot_seq := 0 }

/-- Witness state for the ops conflict theorem: file `f1` at version 2 with
one logged operation from another client. -/
def c1WState : RoomState :=
  { version := 4, op_seq := 1,
    files := [{ id := "if1", path_hash := "f1", path_encrypted := "p1",
                content_encrypted := some "c2", is_syncable := true,
                size_bytes := none, version := 2, snapshot_seq := 0 }],
    operations := [{ file_path_hash := "f1", seq := 1, op_encrypted := "opX",
                     client_id := some "X", base_version := 1 }],
    tombstones := [], changesets := [], changes := [] }

/-- Witness request for the ops conflict theorem: client B behind at
`base_version = 1`. -/
def c1WReq : OpsReq :=
  { file_path_hash := "f1", op_encrypted := "opB", client_id := some "B",
    base_version := some 1 }

/-- Witness state for the sync-complete theorem: two files, one of which the
session did not observe. -/
def c6WState : RoomState :=
  { version := 5, op_seq := 0,
    files := [{ id := "ia", path_hash := "a", path_encrypted := "pa",
                content_encrypted := some "ca", is_syncable := true,
                size_bytes := none, version := 1, snapshot_seq := 0 },
              { id := "ib", path_hash := "b", path_encrypted := "pb",
                content_encrypted := some "cb", is_syncable := true,
                size_bytes := none, version := 2, snapshot_seq := 0 }],
    operations := [], tombstones := [], changesets := [], changes := [] }

/-- Witness session registry for the sync-complete theorem: one live session
whose observed set contains only `a`. -/
def c6WSessions : List (String × List String) :=
  [("tok", ["a"])]

/-! ### Helper lemmas -/

theorem char_toNat_inj {a b : Char} (h : a.toNat = b.toNat) : a = b :=
  Char.ext (UInt32.ext h)

theorem charsLe_total : ∀ as bs : List Char, charsLe as bs = true ∨ charsLe bs as = true := by
  intro as
  induction as with
  | nil => intro bs; left; rfl
  | cons a as ih =>
    intro bs
    cases bs with
    | nil => right; rfl
    | cons b bs =>
      by_cases hab : a = b
      · subst hab
        rcases ih bs with h | h
        · left; simp [charsLe, h]
        · right; simp [charsLe, h]
      · have hba : ¬b = a := fun hh => hab hh.symm
        have hvne : a.toNat ≠ b.toNat := fun h => hab (char_toNat_inj h)
        rcases lt_or_gt_of_ne hvne with h | h
        · left; simp [charsLe, hab, h]
        · right; simp [charsLe, hba]; exact h

theorem charsLe_trans : ∀ as bs cs : List Char,
    charsLe as bs = true → charsLe bs cs = true → charsLe as cs = true := by
  intro as
  induction as with
  | nil => intro bs cs _ _; rfl
  | cons a as ih =>
    intro bs cs h1 h2
    cases bs with
    | nil => simp [charsLe] at h1
    | cons b bs =>
      cases cs with
      | nil => simp [charsLe] at h2
      | cons c cs =>
        by_cases hab : a = b <;> by_cases hbc : b = c
        · subst hab; subst hbc
          simp only [charsLe, if_pos rfl] at h1 h2 ⊢
          exact ih bs cs h1 h2
        · subst hab
          simp only [charsLe, if_pos rfl] at h1
          simp only [charsLe, if_neg hbc] at h2 ⊢
          exact h2
        · subst hbc
          simp only [charsLe, if_neg hab] at h1
          simp only [charsLe, if_pos rfl] at h2
          simp only [charsLe, if_neg hab]
          exact h1
        · simp only [charsLe, if_neg hab, decide_eq_true_eq] at h1
          simp only [charsLe, if_neg hbc, decide_eq_true_eq] at h2
          have hlt : a.toNat < c.toNat := lt_trans h1 h2
          have hac : ¬a = c := fun hh => by
            rw [hh] at hlt; exact lt_irrefl _ hlt
          simp only [charsLe, if_neg hac, decide_eq_true_eq]
          exact hlt

theorem fileLe_total : ∀ a b : FileRow, fileLe a b ∨ fileLe b a := by
  intro a b
  exact charsLe_total a.path_encrypted.data b.path_encrypted.data

theorem fileLe_trans : ∀ a b c : FileRow, fileLe a b → fileLe b c → fileLe a c := by
  intro a b c h1 h2
  exact charsLe_trans a.path_encrypted.data b.path_encrypted.data c.path_encrypted.data h1 h2

theorem lookup_filter_ne_self {β : Type} (token : String) :
    ∀ sessions : List (String × β),
      (sessions.filter (fun kv => !(kv.1 == token))).lookup token = none := by
  intro sessions
  induction sessions with
  | nil => rfl
  | cons kv rest ih =>
    by_cases h : kv.1 = token
    · simp [List.filter, h, ih]
    · have hb : (kv.1 == token) = false := beq_false_of_ne h
      simp [List.filter, hb, List.lookup, ih, beq_false_of_ne (fun hh => h hh.symm)]

theorem foldl_trackDeletion (v : Nat) :
    ∀ (l : List FileRow) (st : RoomState),
      l.foldl (fun acc f => trackDeletion acc f.path_hash v) st =
        { st with tombstones :=
            st.tombstones ++ l.map (fun f =>
              { path_hash := f.path_hash, deleted_at_version := v }) } := by
  intro l
  induction l with
  | nil => intro st; simp
  | cons f rest ih =>
    intro st
    rw [List.foldl_cons, ih]
    simp [trackDeletion, List.append_assoc]

theorem mem_clientUpsert_self (acc : List FileRow) (f : FileRow) :
    f ∈ clientUpsert acc f := by
  unfold clientUpsert
  by_cases h : acc.any (fun g => g.path_hash == f.path_hash) = true
  · rw [if_pos h]
    rcases List.any_eq_true.mp h with ⟨g, hg, hgf⟩
    exact List.mem_map.mpr ⟨g, hg, by rw [if_pos hgf]⟩
  · rw [if_neg h]
    exact List.mem_append_right _ (List.mem_singleton.mpr rfl)

theorem mem_clientUpsert_elim {acc : List FileRow} {f x : FileRow}
    (hx : x ∈ clientUpsert acc f) : x ∈ acc ∨ x = f := by
  unfold clientUpsert at hx
  by_cases h : acc.any (fun g => g.path_hash == f.path_hash) = true
  · rw [if_pos h] at hx
    rcases List.mem_map.mp hx with ⟨g, hg, hgx⟩
    by_cases hgf : (g.path_hash == f.path_hash) = true
    · right; rw [if_pos hgf] at hgx; exact hgx.symm
    · left; rw [if_neg hgf] at hgx; exact hgx ▸ hg
  · rw [if_neg h] at hx
    rcases List.mem_append.mp hx with h1 | h1
    · exact Or.inl h1
    · exact Or.inr (List.mem_singleton.mp h1)

theorem mem_clientUpsert_of_ne {acc : List FileRow} {f x : FileRow}
    (hx : x ∈ acc) (hne : x.path_hash ≠ f.path_hash) : x ∈ clientUpsert acc f := by
  unfold clientUpsert
  by_cases h : acc.any (fun g => g.path_hash == f.path_hash) = true
  · rw [if_pos h]
    exact List.mem_map.mpr ⟨x, hx, by rw [if_neg (by simpa using hne)]⟩
  · rw [if_neg h]
    exact List.mem_append_left _ hx

theorem clientUpsert_hash_eq {acc : List FileRow} {f x : FileRow}
    (hx : x ∈ clientUpsert acc f) (hh : x.path_hash = f.path_hash) : x = f := by
  unfold clientUpsert at hx
  by_cases h : acc.any (fun g => g.path_hash == f.path_hash) = true
  · rw [if_pos h] at hx
    rcases List.mem_map.mp hx with ⟨g, _, hgx⟩
    by_cases hgf : (g.path_hash == f.path_hash) = true
    · rw [if_pos hgf] at hgx; exact hgx.symm
    · rw [if_neg hgf] at hgx
      subst hgx
      exact absurd (by simpa using hh) hgf
  · rw [if_neg h] at hx
    rcases List.mem_append.mp hx with h1 | h1
    · have := List.any_eq_false.mp (Bool.not_eq_true _ ▸ h) x h1
      exact absurd (by simpa using hh) (by simpa using this)
    · exact List.mem_singleton.mp h1

theorem mem_applyFiles_elim {x : FileRow} :
    ∀ {A client : List FileRow}, x ∈ applyFiles client A → x ∈ client ∨ x ∈ A := by
  intro A
  induction A with
  | nil => intro client hx; exact Or.inl hx
  | cons a A ih =>
    intro client hx
    rcases ih hx with h | h
    · rcases mem_clientUpsert_elim h with h1 | h1
      · exact Or.inl h1
      · exact Or.inr (h1 ▸ List.mem_cons_self a A)
    · exact Or.inr (List.mem_cons_of_mem a h)

theorem mem_applyFiles_of_not_hash {x : FileRow} :
    ∀ {A client : List FileRow}, x ∈ client →
      x.path_hash ∉ A.map FileRow.path_hash → x ∈ applyFiles client A := by
  intro A
  induction A with
  | nil => intro client hx _; exact hx
  | cons a A ih =>
    intro client hx hh
    have hne : x.path_hash ≠ a.path_hash := by
      intro hcon
      exact hh (List.mem_map.mpr ⟨a, List.mem_cons_self a A, hcon.symm⟩)
    have hh' : x.path_hash ∉ A.map FileRow.path_hash := by
      intro hcon
      rcases List.mem_map.mp hcon with ⟨g, hg, hgx⟩
      exact hh (List.mem_map.mpr ⟨g, List.mem_cons_of_mem a hg, hgx⟩)
    exact ih (mem_clientUpsert_of_ne hx hne) hh'

theorem mem_applyFiles_of_mem {a : FileRow} :
    ∀ {A client : List FileRow}, (A.map FileRow.path_hash).Nodup → a ∈ A →
      a ∈ applyFiles client A := by
  intro A
  induction A with
  | nil => intro client _ ha; exact absurd ha (List.not_mem_nil a)
  | cons b A ih =>
    intro client hnd ha
    rcases List.nodup_cons.mp hnd with ⟨hb, hndA⟩
    rcases List.mem_cons.mp ha with h | h
    · subst h
      show a ∈ applyFiles (clientUpsert client a) A
      exact mem_applyFiles_of_not_hash (mem_clientUpsert_self client a) hb
    · exact ih hndA h

theorem applyFiles_not_hash_mem {x : FileRow} :
    ∀ {A client : List FileRow}, x ∈ applyFiles client A →
      x.path_hash ∉ A.map FileRow.path_hash → x ∈ client := by
  intro A
  induction A with
  | nil => intro client hx _; exact hx
  | cons a A ih =>
    intro client hx hh
    have hhA : x.path_hash ∉ A.map FileRow.path_hash := by
      intro hcon
      rcases List.mem_map.mp hcon with ⟨g, hg, hgx⟩
      exact hh (List.mem_map.mpr ⟨g, List.mem_cons_of_mem a hg, hgx⟩)
    rcases mem_clientUpsert_elim (ih hx hhA) with h | h
    · exact h
    · exact absurd (List.mem_map.mpr ⟨a, List.mem_cons_self a A, by rw [h]⟩) hh

theorem applyFiles_hash_unique {x a : FileRow} :
    ∀ {A client : List FileRow}, (A.map FileRow.path_hash).Nodup →
      x ∈ applyFiles client A → a ∈ A → x.path_hash = a.path_hash → x = a := by
  intro A
  induction A with
  | nil => intro client _ _ ha _; exact absurd ha (List.not_mem_nil a)
  | cons b A ih =>
    intro client hnd hx ha hxa
    rcases List.nodup_cons.mp hnd with ⟨hb, hndA⟩
    rcases List.mem_cons.mp ha with h | h
    · subst h
      have hxA : x.path_hash ∉ A.map FileRow.path_hash := by
        rw [hxa]; exact hb
      exact clientUpsert_hash_eq (applyFiles_not_hash_mem hx hxA) hxa
    · exact ih hndA hx h hxa

theorem fetchFilesToExhaustion_eq (s : RoomState) (since limit : Nat) :
    ∀ fuel offset : Nat, (sinceFiles s since).length ≤ offset + fuel * limit →
      fetchFilesToExhaustion s since limit fuel offset =
        (sinceFiles s since).drop offset := by
  intro fuel
  induction fuel with
  | zero =>
    intro offset h
    rw [Nat.zero_mul, Nat.add_zero] at h
    rw [fetchFilesToExhaustion, (List.drop_eq_nil_of_le h).symm]
  | succ fuel ih =>
    intro offset h
    set L := sinceFiles s since with hL
    by_cases hm : (((L.drop offset).take limit).length == limit) = true
    · have hstep : fetchFilesToExhaustion s since limit (fuel + 1) offset =
          (L.drop offset).take limit ++
            fetchFilesToExhaustion s since limit fuel (offset + limit) := by
        rw [fetchFilesToExhaustion]
        simp only [getRoomState, ← hL]
        rw [if_pos hm]
      rw [hstep, ih (offset + limit) (by
        rw [Nat.succ_mul] at h
        omega)]
      rw [← List.drop_drop]
      exact List.take_append_drop limit (L.drop offset)
    · have hstep : fetchFilesToExhaustion s since limit (fuel + 1) offset =
          (L.drop offset).take limit := by
        rw [fetchFilesToExhaustion]
        simp only [getRoomState, ← hL]
        rw [if_neg hm]
      have hlen : (L.drop offset).length ≤ limit := by
        have := List.length_take limit (L.drop offset)
        rw [Nat.beq_eq_true_eq] at hm
        omega
      rw [hstep]
      exact List.take_of_length_le hlen

theorem mem_sinceFiles {s : RoomState} {N : Nat} {x : FileRow} :
    x ∈ sinceFiles s N ↔ x ∈ s.files ∧ N < x.version := by
  simp [sinceFiles, List.mem_insertionSort, List.mem_filter]

theorem sinceFiles_hash_nodup {s : RoomState} {N : Nat}
    (h : (s.files.map FileRow.path_hash).Nodup) :
    ((sinceFiles s N).map FileRow.path_hash).Nodup := by
  have h1 : (((s.files.filter (fun f => decide (N < f.version))).map
      FileRow.path_hash)).Nodup :=
    ((List.filter_sublist s.files).map FileRow.path_hash).nodup h
  have hperm := List.perm_insertionSort fileLe
    (s.files.filter (fun f => decide (N < f.version)))
  exact ((hperm.map FileRow.path_hash).nodup_iff).mpr h1

theorem mem_applyDeletions {l : List FileRow} {deleted : List String} {x : FileRow} :
    x ∈ applyDeletions l deleted ↔ x ∈ l ∧ x.path_hash ∉ deleted := by
  constructor
  · intro hx
    rcases List.mem_filter.mp hx with ⟨h1, h2⟩
    refine ⟨h1, fun hcon => ?_⟩
    rw [Bool.not_eq_eq_eq_not, Bool.not_true] at h2
    exact absurd (List.elem_iff.mpr hcon) (by simpa using h2)
  · intro ⟨h1, h2⟩
    refine List.mem_filter.mpr ⟨h1, ?_⟩
    have hc : deleted.contains x.path_hash = false := by
      by_contra hcon
      exact h2 (List.elem_iff.mp (Bool.not_eq_false _ ▸ hcon))
    rw [hc]
    rfl

theorem deltaSync_since_mem
    (s : RoomState) (client : List FileRow) (N limit fuel : Nat)
    (hN : 0 < N)
    (hfuel : s.files.length ≤ fuel * limit)
    (hndS : (s.files.map FileRow.path_hash).Nodup)
    (hndC : (client.map FileRow.path_hash).Nodup)
    (hbase : ∀ f ∈ s.files, f.version ≤ N → f ∈ client)
    (htombdel : ∀ g ∈ client, (∀ f ∈ s.files, f.path_hash ≠ g.path_hash) →
        ∃ t ∈ s.tombstones, t.path_hash = g.path_hash ∧ N < t.deleted_at_version)
    (htomblive : ∀ t ∈ s.tombstones, N < t.deleted_at_version →
        ∀ f ∈ s.files, f.path_hash ≠ t.path_hash) :
    ∀ x, x ∈ deltaSyncApply client s N limit fuel ↔ x ∈ s.files := by
  have hlen : (sinceFiles s N).length ≤ 0 + fuel * limit := by
    rw [Nat.zero_add, sinceFiles, List.length_insertionSort]
    exact le_trans (List.length_filter_le _ _) hfuel
  have hfetch : fetchFilesToExhaustion s N limit fuel 0 = sinceFiles s N := by
    rw [fetchFilesToExhaustion_eq s N limit fuel 0 hlen, List.drop_zero]
  have hndA : ((sinceFiles s N).map FileRow.path_hash).Nodup :=
    sinceFiles_hash_nodup hndS
  have hdel : (getRoomState s N limit 0).deleted_path_hashes =
      (s.tombstones.filter (fun t => decide (N < t.deleted_at_version))).map
        Tombstone.path_hash := by
    simp only [getRoomState]
    rw [if_pos hN]
  intro x
  unfold deltaSyncApply
  rw [hfetch, hdel]
  constructor
  · intro hx
    rcases mem_applyDeletions.mp hx with ⟨hx1, hx2⟩
    rcases mem_applyFiles_elim hx1 with hc | hA
    · by_cases hcur : ∃ f ∈ s.files, f.path_hash = x.path_hash
      · rcases hcur with ⟨f, hf, hfh⟩
        by_cases hv : N < f.version
        · have hfA : f ∈ sinceFiles s N := mem_sinceFiles.mpr ⟨hf, hv⟩
          have hxf : x = f := applyFiles_hash_unique hndA hx1 hfA hfh.symm
          rw [hxf]; exact hf
        · have hfc : f ∈ client := hbase f hf (le_of_not_lt hv)
          have hxf : x = f := List.inj_on_of_nodup_map hndC hc hfc hfh.symm
          rw [hxf]; exact hf
      · push_neg at hcur
        rcases htombdel x hc (fun f hf => hcur f hf) with ⟨t, ht, hth, htv⟩
        exact absurd
          (List.mem_map.mpr ⟨t, List.mem_filter.mpr ⟨ht, by simpa using htv⟩, hth⟩)
          hx2
    · exact (mem_sinceFiles.mp hA).1
  · intro hx
    refine mem_applyDeletions.mpr ⟨?_, ?_⟩
    · by_cases hv : N < x.version
      · exact mem_applyFiles_of_mem hndA (mem_sinceFiles.mpr ⟨hx, hv⟩)
      · have hc : x ∈ client := hbase x hx (le_of_not_lt hv)
        have hnA : x.path_hash ∉ (sinceFiles s N).map FileRow.path_hash := by
          intro hcon
          rcases List.mem_map.mp hcon with ⟨a, haA, hah⟩
          rcases mem_sinceFiles.mp haA with ⟨haf, hav⟩
          have hax : a = x := List.inj_on_of_nodup_map hndS haf hx hah
          rw [hax] at hav
          exact hv hav
        exact mem_applyFiles_of_not_hash hc hnA
    · intro hcon
      rcases List.mem_map.mp hcon with ⟨t, htf, hth⟩
      rcases List.mem_filter.mp htf with ⟨ht, htv⟩
      exact htomblive t ht (by simpa using htv) x hx hth.symm

theorem deltaSync_zero_mem
    (s : RoomState) (limit fuel : Nat)
    (hfuel : s.files.length ≤ fuel * limit)
    (hndS : (s.files.map FileRow.path_hash).Nodup)
    (hver : ∀ f ∈ s.files, 0 < f.version) :
    ∀ x, x ∈ deltaSyncApply [] s 0 limit fuel ↔ x ∈ s.files := by
  have hlen : (sinceFiles s 0).length ≤ 0 + fuel * limit := by
    rw [Nat.zero_add, sinceFiles, List.length_insertionSort]
    exact le_trans (List.length_filter_le _ _) hfuel
  have hfetch : fetchFilesToExhaustion s 0 limit fuel 0 = sinceFiles s 0 := by
    rw [fetchFilesToExhaustion_eq s 0 limit fuel 0 hlen, List.drop_zero]
  have hndA : ((sinceFiles s 0).map FileRow.path_hash).Nodup :=
    sinceFiles_hash_nodup hndS
  have hdel : (getRoomState s 0 limit 0).deleted_path_hashes = [] := by
    simp [getRoomState]
  intro x
  unfold deltaSyncApply
  rw [hfetch, hdel]
  constructor
  · intro hx
    rcases mem_applyDeletions.mp hx with ⟨hx1, _⟩
    rcases mem_applyFiles_elim hx1 with hc | hA
    · exact absurd hc (List.not_mem_nil x)
    · exact (mem_sinceFiles.mp hA).1
  · intro hx
    refine mem_applyDeletions.mpr ⟨?_, List.not_mem_nil _⟩
    exact mem_applyFiles_of_mem hndA (mem_sinceFiles.mpr ⟨hx, hver x hx⟩)

/-! ### Claim theorems -/

/-- C1: for every `POST /api/room/:id/ops` request that supplies a
`base_version`, under the guard `base_version > 0` or `v_file > 0` the handler
answers HTTP 409 — carrying `current_version = v_file`, the submitted
`base_version` and the conflicting operations (`seq > snapshot_seq`, other
clients) — if and only if that conflict list is non-empty and
`base_version < v_file`; in every other case the submission succeeds with
`seq` equal to the room's pre-transaction `op_seq + 1` and
`current_version = v_file + 1`. -/
theorem submitOp_conflict_iff (s : RoomState) (r : OpsReq) (bv : Nat)
    (hbv : r.base_version = some bv) :
    ((submitOp s r).1.isConflict = true ↔
      ((0 < bv ∨ 0 < fileVersionOf s r.file_path_hash) ∧
        conflictingOpsOf s r ≠ [] ∧
        bv < fileVersionOf s r.file_path_hash)) ∧
    ((submitOp s r).1.isConflict = true →
      (submitOp s r).1 =
        OpsResp.conflict (fileVersionOf s r.file_path_hash) bv
          ((conflictingOpsOf s r).map (fun op =>
            { seq := op.seq, op_encrypted := op.op_encrypted,
              client_id := op.client_id })) ∧
      (submitOp s r).2 = s) ∧
    ((submitOp s r).1.isConflict = false →
      (submitOp s r).1 =
        OpsResp.ok (s.op_seq + 1) (fileVersionOf s r.file_path_hash + 1)) := by
  by_cases hg : 0 < bv ∨ 0 < fileVersionOf s r.file_path_hash
  · have hgb : (decide (0 < bv) ||
        decide (0 < fileVersionOf s r.file_path_hash)) = true := by
      simp only [Bool.or_eq_true, decide_eq_true_eq]
      exact hg
    by_cases hc : conflictingOpsOf s r ≠ [] ∧
        bv < fileVersionOf s r.file_path_hash
    · have hcb : (decide (0 < (conflictingOpsOf s r).length) &&
          decide (bv < fileVersionOf s r.file_path_hash)) = true := by
        simp only [Bool.and_eq_true, decide_eq_true_eq]
        exact ⟨List.length_pos.mpr hc.1, hc.2⟩
      have hred : submitOp s r =
          (OpsResp.conflict (fileVersionOf s r.file_path_hash) bv
            ((conflictingOpsOf s r).map (fun op =>
              { seq := op.seq, op_encrypted := op.op_encrypted,
                client_id := op.client_id })), s) := by
        simp only [submitOp, hbv]
        rw [if_pos hgb, if_pos hcb]
      rw [hred]
      refine ⟨?_, ?_, ?_⟩
      · simp only [OpsResp.isConflict, true_iff]
        exact ⟨hg, hc⟩
      · intro _
        exact ⟨rfl, rfl⟩
      · intro hfalse
        exact absurd hfalse (by simp [OpsResp.isConflict])
    · have hcb : ¬((decide (0 < (conflictingOpsOf s r).length) &&
          decide (bv < fileVersionOf s r.file_path_hash)) = true) := by
        simp only [Bool.and_eq_true, decide_eq_true_eq]
        intro hcon
        exact hc ⟨fun hnil => by
          rw [hnil] at hcon
          exact absurd hcon.1 (lt_irrefl 0), hcon.2⟩
      have hred : submitOp s r =
          submitOpSuccess s r (fileVersionOf s r.file_path_hash) := by
        simp only [submitOp, hbv]
        rw [if_pos hgb, if_neg hcb]
      rw [hred]
      refine ⟨?_, ?_, ?_⟩
      · constructor
        · intro hcon
          exact absurd hcon (by simp [submitOpSuccess, OpsResp.isConflict])
        · intro hcon
          exact absurd hcon.2 hc
      · intro hcon
        exact absurd hcon (by simp [submitOpSuccess, OpsResp.isConflict])
      · intro _
        simp [submitOpSuccess]
  · have hgb : ¬((decide (0 < bv) ||
        decide (0 < fileVersionOf s r.file_path_hash)) = true) := by
      simp only [Bool.or_eq_true, decide_eq_true_eq]
      exact hg
    have hred : submitOp s r =
        submitOpSuccess s r (fileVersionOf s r.file_path_hash) := by
      simp only [submitOp, hbv]
      rw [if_neg hgb]
    rw [hred]
    refine ⟨?_, ?_, ?_⟩
    · constructor
      · intro hcon
        exact absurd hcon (by simp [submitOpSuccess, OpsResp.isConflict])
      · intro hcon
        exact absurd hcon.1 hg
    · intro hcon
      exact absurd hcon (by simp [submitOpSuccess, OpsResp.isConflict])
    · intro _
      simp [submitOpSuccess]

/-- Witness for `submitOp_conflict_iff`: in `c1WState` (file at version 2, a
logged op from client X), client B's request at `base_version 1` is answered
with HTTP 409. -/
theorem submitOp_conflict_iff_witness :
    (submitOp c1WState c1WReq).1.isConflict = true :=
  ((submitOp_conflict_iff c1WState c1WReq 1 rfl).1).mpr (by decide)

/-- C3 counterexample: in scenario S3 — room at `op_seq = 0` with file `f1` at
version 1 — client A's op with `base_version = 1` succeeds with `seq = 1`, but
client B's subsequent op with `base_version = 1` is NOT answered with HTTP 409:
the handler accepts it. -/
theorem s3_second_op_not_conflict :
    (submitOp s3Room s3ReqA).1 = OpsResp.ok 1 2 ∧
    (submitOp (submitOp s3Room s3ReqA).2 s3ReqB).1.isConflict = false := by
  decide

/-- C3 amended: after A's accepted op, client B's op with `base_version = 1`
also succeeds, with `seq = 2` and reported `current_version = 2`: the ops
handler never updates the stored file row, whose version remains 1, so the 409
guard `base_version < v_file` is false even though A's op is a conflict
candidate from another client. -/
theorem s3_actual_behavior :
    (submitOp (submitOp s3Room s3ReqA).2 s3ReqB).1 = OpsResp.ok 2 2 ∧
    fileVersionOf (submitOp s3Room s3ReqA).2 "f1" = 1 ∧
    conflictingOpsOf (submitOp s3Room s3ReqA).2 s3ReqB ≠ [] := by
  decide

/-- C2: accepting a changeset with a still-pending child always fails at the
file upsert — the statement's conflict target `(room_id, path_encrypted)`
matches no unique index of `files` (src/init.sql declares only
`UNIQUE(room_id, path_hash)`) — so the transaction is rolled back and the
handler answers HTTP 500 with files, changes and the changeset all
untouched. -/
theorem acceptChangeset_insert_fails :
    acceptChangesetTx csState "cs1" =
      Except.error SqlError.noMatchingConflictTarget ∧
    acceptChangesetHandler csState "cs1" = (HandlerResult.err500, csState) :=
  ⟨rfl, rfl⟩

/-- C4: accepting the single pending change `c1` of scenario S5 fails the same
way: the file upsert errors, the handler answers HTTP 500, and neither the
change, nor the changeset, nor the target file is modified — the changeset
never reaches status partial. -/
theorem acceptChange_insert_fails :
    acceptChangeHandler csState "c1" = (HandlerResult.err500, csState) := by
  decide

/-- C9 counterexample: the whole-changeset reject handler opens no
transaction; when its second statement fails, the request is answered with
HTTP 500 while the first statement's effects persist: the child change is
already `rejected` but the changeset is still `pending` — visible partial
state after a failed request. -/
theorem rejectChangeset_partial_state :
    (rejectChangesetHandlerF csState "cs1" true).1 = HandlerResult.err500 ∧
    ((rejectChangesetHandlerF csState "cs1" true).2.changes.map
      (fun ch => ch.status)) = ["rejected"] ∧
    (rejectChangesetHandlerF csState "cs1" true).2.changesets = [csRow] := by
  decide

/-- C9 amended: handlers wrapped in an explicit transaction (here the
whole-changeset accept) leave the state unchanged when they fail, but the
whole-changeset reject runs its two statements in autocommit mode: when the
second fails the handler answers 500 with every child of the changeset already
rejected while the changesets table is untouched. -/
theorem changeset_handlers_atomicity (s : RoomState) (csId : String) :
    ((acceptChangesetHandler s csId).1 = HandlerResult.err500 →
      (acceptChangesetHandler s csId).2 = s) ∧
    ((rejectChangesetHandlerF s csId true).1 = HandlerResult.err500 ∧
      (rejectChangesetHandlerF s csId true).2.changesets = s.changesets ∧
      ∀ ch ∈ s.changes, ch.changeset_id = csId →
        { ch with status := "rejected" } ∈
          (rejectChangesetHandlerF s csId true).2.changes) := by
  constructor
  · intro h
    unfold acceptChangesetHandler at h ⊢
    cases hcase : acceptChangesetTx s csId with
    | ok s' =>
      rw [hcase] at h
      exact absurd h (by simp)
    | error e =>
      rfl
  · refine ⟨rfl, rfl, ?_⟩
    intro ch hch hcsid
    show { ch with status := "rejected" } ∈ (rejectChildren s csId).changes
    unfold rejectChildren
    refine List.mem_map.mpr ⟨ch, hch, ?_⟩
    rw [if_pos (by simp [hcsid])]

/-- Witness for `changeset_handlers_atomicity` at the concrete room
`csState`. -/
theorem changeset_handlers_atomicity_witness :
    (acceptChangesetHandler csState "cs1").2 = csState :=
  (changeset_handlers_atomicity csState "cs1").1 (by decide)

/-- C10: a successful operation submission advances the room version by
exactly 2 (the handler's explicit `UPDATE rooms` plus the `operation_created`
trigger firing `notify_room_update`), while a single-file upsert advances it
by exactly 1 (the `file_updated` trigger only; the handler issues no room
UPDATE) — so the room version counter does not count successful mutations. -/
theorem version_bump_accounting :
    (∀ (s : RoomState) (r : OpsReq) (q c : Nat),
      (submitOp s r).1 = OpsResp.ok q c →
        (submitOp s r).2.version = s.version + 2) ∧
    (∀ (s : RoomState) (r : FilesReq) (newId : String),
      (postFiles s r newId).2.version = s.version + 1) := by
  constructor
  · intro s r q c h
    cases hbv : r.base_version with
    | none =>
      simp only [submitOp, hbv]
      simp [submitOpSuccess, notifyRoomUpdate]
    | some bv =>
      by_cases hg : (decide (0 < bv) ||
          decide (0 < fileVersionOf s r.file_path_hash)) = true
      · by_cases hc : (decide (0 < (conflictingOpsOf s r).length) &&
            decide (bv < fileVersionOf s r.file_path_hash)) = true
        · exfalso
          simp only [submitOp, hbv] at h
          rw [if_pos hg, if_pos hc] at h
          exact absurd h (by simp)
        · simp only [submitOp, hbv]
          rw [if_pos hg, if_neg hc]
          simp [submitOpSuccess, notifyRoomUpdate]
      · simp only [submitOp, hbv]
        rw [if_neg hg]
        simp [submitOpSuccess, notifyRoomUpdate]
  · intro s r newId
    unfold postFiles upsertFile
    cases hf : s.files.find? (fun f => f.path_hash == r.path_hash) with
    | some f => simp [notifyRoomUpdate]
    | none => simp [notifyRoomUpdate]

/-- Witness for `version_bump_accounting`: client A's accepted S3 op bumps
the room version from 1 to 3. -/
theorem version_bump_accounting_witness :
    (submitOp s3Room s3ReqA).2.version = s3Room.version + 2 :=
  version_bump_accounting.1 s3Room s3ReqA 1 2 (by decide)

/-- C7: deleting a file by id in one transaction reads its `path_hash`,
removes the row, advances the room version to `v' = version + 1`, appends the
tombstone `(path_hash, v')`, and answers success with `v'`; an unknown file id
is answered 404 with the state untouched. -/
theorem deleteFile_spec (s : RoomState) (fileId : String) :
    (s.files.find? (fun f => f.id == fileId) = none →
      deleteFile s fileId = (DeleteResp.notFound, s)) ∧
    (∀ f, s.files.find? (fun f => f.id == fileId) = some f →
      (deleteFile s fileId).1 = DeleteResp.ok (s.version + 1) ∧
      (deleteFile s fileId).2.version = s.version + 1 ∧
      (deleteFile s fileId).2.tombstones =
        s.tombstones ++ [{ path_hash := f.path_hash,
                           deleted_at_version := s.version + 1 }] ∧
      (∀ g, g ∈ (deleteFile s fileId).2.files ↔ g ∈ s.files ∧ g.id ≠ fileId) ∧
      (deleteFile s fileId).2.op_seq = s.op_seq ∧
      (deleteFile s fileId).2.operations = s.operations) := by
  constructor
  · intro h
    unfold deleteFile
    rw [h]
  · intro f h
    unfold deleteFile
    rw [h]
    refine ⟨rfl, rfl, rfl, ?_, rfl, rfl⟩
    intro g
    constructor
    · intro hg
      rcases List.mem_filter.mp hg with ⟨h1, h2⟩
      refine ⟨h1, ?_⟩
      simpa using h2
    · intro hg
      refine List.mem_filter.mpr ⟨hg.1, ?_⟩
      simpa using hg.2

/-- Witness for `deleteFile_spec`: deleting file `ia` of `c6WState` answers
success with version 6. -/
theorem deleteFile_spec_witness :
    (deleteFile c6WState "ia").1 = DeleteResp.ok 6 :=
  (((deleteFile_spec c6WState "ia").2
    { id := "ia", path_hash := "a", path_encrypted := "pa",
      content_encrypted := some "ca", is_syncable := true, size_bytes := none,
      version := 1, snapshot_seq := 0 } (by decide)).1)

/-- C6: with a live session, sync-complete keeps exactly the files whose
`path_hash` the session observed; when at least one file is deleted the room
version advances exactly once to `v' = version + 1` and one tombstone at `v'`
is appended per deleted file; when nothing is deleted the room state is
untouched; the session is removed; and the response carries the post-complete
room state together with the deletion count. -/
theorem syncComplete_spec (s : RoomState)
    (sessions : List (String × List String)) (token : String)
    (observed : List String)
    (hsess : sessions.lookup token = some observed) :
    (∀ g, g ∈ (syncComplete s sessions token).2.1.files ↔
      g ∈ s.files ∧ observed.contains g.path_hash = true) ∧
    (s.files.filter (fun f => !(observed.contains f.path_hash)) ≠ [] →
      (syncComplete s sessions token).2.1.version = s.version + 1 ∧
      (syncComplete s sessions token).2.1.tombstones =
        s.tombstones ++
          (s.files.filter (fun f => !(observed.contains f.path_hash))).map
            (fun f => { path_hash := f.path_hash,
                        deleted_at_version := s.version + 1 })) ∧
    (s.files.filter (fun f => !(observed.contains f.path_hash)) = [] →
      (syncComplete s sessions token).2.1 = s) ∧
    (syncComplete s sessions token).2.2.lookup token = none ∧
    (syncComplete s sessions token).1 =
      SyncCompleteResp.ok
        (getRoomState (syncComplete s sessions token).2.1 0 1000 0)
        (s.files.filter (fun f => !(observed.contains f.path_hash))).length := by
  by_cases hne : s.files.filter (fun f => !(observed.contains f.path_hash)) = []
  · have hred : syncComplete s sessions token =
        (SyncCompleteResp.ok (getRoomState s 0 1000 0) 0, s,
          sessions.filter (fun kv => !(kv.1 == token))) := by
      simp only [syncComplete, hsess, hne]
      rfl
    rw [hred]
    refine ⟨?_, ?_, ?_, ?_, ?_⟩
    · intro g
      constructor
      · intro hg
        refine ⟨hg, ?_⟩
        have hnot := List.filter_eq_nil_iff.mp hne g hg
        cases hcontains : observed.contains g.path_hash
        · exact absurd (by rw [hcontains]; rfl) hnot
        · rfl
      · exact fun hg => hg.1
    · intro hcon
      exact absurd hne hcon
    · intro _
      rfl
    · exact lookup_filter_ne_self token sessions
    · rw [hne]
      rfl
  · have hpos : 0 <
        (s.files.filter (fun f => !(observed.contains f.path_hash))).length :=
      List.length_pos.mpr hne
    have hred : syncComplete s sessions token =
        (SyncCompleteResp.ok
          (getRoomState
            { version := s.version + 1, op_seq := s.op_seq,
              files := s.files.filter (fun f => observed.contains f.path_hash),
              operations := s.operations,
              tombstones := s.tombstones ++
                (s.files.filter
                  (fun f => !(observed.contains f.path_hash))).map
                  (fun f => { path_hash := f.path_hash,
                              deleted_at_version := s.version + 1 }),
              changesets := s.changesets, changes := s.changes } 0 1000 0)
          (s.files.filter (fun f => !(observed.contains f.path_hash))).length,
         { version := s.version + 1, op_seq := s.op_seq,
           files := s.files.filter (fun f => observed.contains f.path_hash),
           operations := s.operations,
           tombstones := s.tombstones ++
             (s.files.filter
               (fun f => !(observed.contains f.path_hash))).map
               (fun f => { path_hash := f.path_hash,
                           deleted_at_version := s.version + 1 }),
           changesets := s.changesets, changes := s.changes },
         sessions.filter (fun kv => !(kv.1 == token))) := by
      simp only [syncComplete, hsess]
      rw [if_pos hpos, foldl_trackDeletion]
    rw [hred]
    refine ⟨?_, ?_, ?_, ?_, ?_⟩
    · intro g
      constructor
      · intro hg
        exact ⟨(List.mem_filter.mp hg).1, (List.mem_filter.mp hg).2⟩
      · intro hg
        exact List.mem_filter.mpr ⟨hg.1, hg.2⟩
    · intro _
      exact ⟨rfl, rfl⟩
    · intro hcon
      exact absurd hcon hne
    · exact lookup_filter_ne_self token sessions
    · rfl

/-- Witness for `syncComplete_spec`: completing session `tok` (which observed
only `a`) on `c6WState` bumps the room version from 5 to 6. -/
theorem syncComplete_spec_witness :
    (syncComplete c6WState c6WSessions "tok").2.1.version =
      c6WState.version + 1 :=
  ((syncComplete_spec c6WState c6WSessions "tok" ["a"] rfl).2.1
    (by decide)).1

/-- C8: the delta-read endpoint returns in `files[]` only files of the room
with per-file `version > N`, ordered by `path_encrypted` and cut to the
`limit`/`offset` window — and exactly the matching files whenever the window
covers them (offset 0, result set within the limit); `deleted_path_hashes[]`
is empty at `N = 0` and for `N > 0` holds exactly the tombstones with
`deleted_at_version > N`; and `has_more` is true iff `files[].length` equals
the limit. -/
theorem getRoomState_spec (s : RoomState) (N L O : Nat) :
    (∀ f, f ∈ (getRoomState s N L O).files → f ∈ s.files ∧ N < f.version) ∧
    List.Pairwise fileLe (getRoomState s N L O).files ∧
    (getRoomState s N L O).files.length ≤ L ∧
    (O = 0 → (s.files.filter (fun f => decide (N < f.version))).length ≤ L →
      ∀ f, f ∈ (getRoomState s N L O).files ↔ f ∈ s.files ∧ N < f.version) ∧
    (N = 0 → (getRoomState s N L O).deleted_path_hashes = []) ∧
    (0 < N → ∀ p, p ∈ (getRoomState s N L O).deleted_path_hashes ↔
      ∃ t ∈ s.tombstones, t.path_hash = p ∧ N < t.deleted_at_version) ∧
    ((getRoomState s N L O).has_more = true ↔
      (getRoomState s N L O).files.length = L) := by
  have hfiles : (getRoomState s N L O).files =
      ((sinceFiles s N).drop O).take L := rfl
  have hsub : (((sinceFiles s N).drop O).take L).Sublist (sinceFiles s N) :=
    (List.take_sublist _ _).trans (List.drop_sublist _ _)
  refine ⟨?_, ?_, ?_, ?_, ?_, ?_, ?_⟩
  · intro f hf
    rw [hfiles] at hf
    exact mem_sinceFiles.mp (hsub.subset hf)
  · rw [hfiles]
    haveI : IsTotal FileRow fileLe := ⟨fileLe_total⟩
    haveI : IsTrans FileRow fileLe := ⟨fileLe_trans⟩
    exact List.Pairwise.sublist hsub
      (List.sorted_insertionSort fileLe
        (s.files.filter (fun f => decide (N < f.version))))
  · rw [hfiles]
    exact List.length_take_le _ _
  · intro hO hlen
    subst hO
    have hall : (getRoomState s N L 0).files = sinceFiles s N := by
      rw [hfiles, List.drop_zero]
      refine List.take_of_length_le ?_
      rw [sinceFiles, List.length_insertionSort]
      exact hlen
    intro f
    rw [hall]
    exact mem_sinceFiles
  · intro hN
    subst hN
    simp [getRoomState]
  · intro hN p
    have hdel : (getRoomState s N L O).deleted_path_hashes =
        (s.tombstones.filter
          (fun t => decide (N < t.deleted_at_version))).map
          (fun t => t.path_hash) := by
      simp only [getRoomState]
      rw [if_pos hN]
    rw [hdel]
    constructor
    · intro hp
      rcases List.mem_map.mp hp with ⟨t, htf, hth⟩
      rcases List.mem_filter.mp htf with ⟨ht, htv⟩
      exact ⟨t, ht, hth, by simpa using htv⟩
    · intro ⟨t, ht, hth, htv⟩
      exact List.mem_map.mpr ⟨t, List.mem_filter.mpr ⟨ht, by simpa using htv⟩, hth⟩
  · have hhm : (getRoomState s N L O).has_more =
        ((getRoomState s N L O).files.length == L) := rfl
    rw [hhm]
    exact beq_iff_eq

/-- Witness for `getRoomState_spec`: the tombstone `z` of `c5WState` is
reported by a `since = 1` read. -/
theorem getRoomState_spec_witness :
    "z" ∈ (getRoomState c5WState 1 1000 0).deleted_path_hashes ↔
      ∃ t ∈ c5WState.tombstones, t.path_hash = "z" ∧ 1 < t.deleted_at_version :=
  ((getRoomState_spec c5WState 1 1000 0).2.2.2.2.2.1 (by decide)) "z"

/-- C5 counterexample: starting from a fresh room, upsert file `a` (room
version 1), then upsert file `b` (room version 2, per-file version 1).  A
client that fetched the full state at version 1 and now applies the
`since = 1` response to exhaustion never receives `b` — its per-file version 1
is not `> 1` — although no tombstone exists, so the delta result differs from
the `since = 0` fetch at the same version. -/
theorem deltaSync_roundTrip_fails :
    c5Client = deltaSyncApply [] c5State1 0 1000 1 ∧
    c5State1.version = 1 ∧
    c5State2.version = 2 ∧
    c5State2.tombstones = [] ∧
    c5RowB ∈ deltaSyncApply [] c5State2 0 1000 1 ∧
    c5RowB ∉ deltaSyncApply c5Client c5State2 1 1000 1 := by
  decide

/-- C5 amended: the delta-sync round-trip holds under the additional
assumptions that every current file whose per-file version is still `≤ N` is
already held verbatim by the client (file versions count writes to the file,
not room versions, so this can fail for files created or last written after
room version N) and that no tombstone newer than N refers to a path that
currently exists (no delete-then-recreate since N); then paging the
`since = N` response to exhaustion, applying the rows and removing the
reported deletions reproduces exactly the file set of a `since = 0` fetch at
the same version. -/
theorem deltaSync_roundTrip_amended
    (s : RoomState) (client : List FileRow) (N limit fuel : Nat)
    (hN : 0 < N)
    (hfuel : s.files.length ≤ fuel * limit)
    (hver : ∀ f ∈ s.files, 0 < f.version)
    (hndS : (s.files.map FileRow.path_hash).Nodup)
    (hndC : (client.map FileRow.path_hash).Nodup)
    (hbase : ∀ f ∈ s.files, f.version ≤ N → f ∈ client)
    (htombdel : ∀ g ∈ client, (∀ f ∈ s.files, f.path_hash ≠ g.path_hash) →
        ∃ t ∈ s.tombstones, t.path_hash = g.path_hash ∧ N < t.deleted_at_version)
    (htomblive : ∀ t ∈ s.tombstones, N < t.deleted_at_version →
        ∀ f ∈ s.files, f.path_hash ≠ t.path_hash) :
    ∀ x, x ∈ deltaSyncApply client s N limit fuel ↔
      x ∈ deltaSyncApply [] s 0 limit fuel := by
  intro x
  rw [deltaSync_since_mem s client N limit fuel hN hfuel hndS hndC hbase
      htombdel htomblive x,
    deltaSync_zero_mem s limit fuel hfuel hndS hver x]

/-- Witness for `deltaSync_roundTrip_amended` at the concrete room
`c5WState` with client `c5WClient`. -/
theorem deltaSync_roundTrip_amended_witness :
    c5WRowA ∈ deltaSyncApply c5WClient c5WState 1 1000 1 ↔
      c5WRowA ∈ deltaSyncApply [] c5WState 0 1000 1 :=
  deltaSync_roundTrip_amended c5WState c5WClient 1 1000 1 (by decide)
    (by decide) (by decide) (by decide) (by decide) (by decide) (by decide)
    (by decide) c5WRowA
